import Mathlib

/-!
# Verification of the csp-solver-ts solving engine

A shallow embedding of the TypeScript CSP solver (data model, constraint
variants, MRV/degree heuristics, AC-3 propagation, backtracking search driver)
together with proofs and refutations of the specified properties.

Modelling conventions, mirroring the JavaScript runtime semantics of the source:
* `Variable`/`Value` are `String`, as in `src/data/types.ts`.
* JS `Map`s (insertion-ordered, unique keys) are association lists; `Map.get`
  is `alookup`, `Map.set` (and `new Map([...m, [k, v]])`) is `mapSet`, which
  replaces in place or appends, exactly as a JS `Map` does.
* JS `Set`s are insertion-ordered duplicate-free lists (`jsSetDedup`,
  `jsSetAdd`).
* A thrown constructor error is modelled as `none` (`Domain.new'`).
* JS string truthiness (`if (value)`, `!val1`) is modelled explicitly: both a
  missing binding and the empty string `""` count as falsy.
* The solver's recursion and the AC-3 `while` loop are modelled with an
  explicit fuel parameter; `none` means the fuel ran out before the code
  returned, so a run that returns `none` for every fuel is a non-terminating
  run of the source program.
* `performance.now()` / `timeMs` (wall-clock time) is not modelled; the
  statistics kept are `nodesExplored` and `inferencesApplied`.
-/

namespace CspSolver

abbrev Variable := String
abbrev Value := String

/-- `Assignment = ReadonlyMap<Variable, Value>` (insertion-ordered JS Map). -/
abbrev Assignment := List (Variable × Value)

/-- JS `Map.get`: the value stored at key `k`, if present. -/
def alookup {α β : Type} [DecidableEq α] : List (α × β) → α → Option β
  | [], _ => none
  | (k', v') :: rest, k => if k' = k then some v' else alookup rest k

/-- JS `Map.set` / `new Map([...m, [k, v]])`: replace the binding of `k` in
place if present (a JS Map keeps the original key position), else append. -/
def mapSet {α β : Type} [DecidableEq α] : List (α × β) → α → β → List (α × β)
  | [], k, v => [(k, v)]
  | (k', v') :: rest, k, v =>
      if k' = k then (k, v) :: rest else (k', v') :: mapSet rest k v

/-- JS `new Set(iterable)`: deduplicate keeping first occurrences, in order. -/
def jsSetDedup {α : Type} [DecidableEq α] (l : List α) : List α :=
  go [] l
where
  go (seen : List α) : List α → List α
    | [] => []
    | x :: xs => if x ∈ seen then go seen xs else x :: go (x :: seen) xs

/-- JS `Set.add`: append unless already present. -/
def jsSetAdd {α : Type} [DecidableEq α] (l : List α) (x : α) : List α :=
  if x ∈ l then l else l ++ [x]

/-- `Domain` from `src/data/domain.ts`: wraps a JS `Set` of values
(an insertion-ordered duplicate-free list). -/
structure Domain where
  values : List Value
deriving DecidableEq, Repr

/-- The `Domain` constructor: `new Set(values)` then throw (`none`) if the
set is empty ("Domain cannot be empty - CSP would be unsolvable"). -/
def Domain.new' (values : List Value) : Option Domain :=
  let valueSet := jsSetDedup values
  if valueSet.isEmpty then none else some ⟨valueSet⟩

/-- `get size()`. -/
def Domain.size (d : Domain) : Nat := d.values.length

/-- `contains(value)`. -/
def Domain.contains (d : Domain) (value : Value) : Bool := value ∈ d.values

/-- `filter(predicate)`: new domain of the values satisfying `predicate`,
or `null` if none remain (the `new Domain(filtered)` call re-deduplicates). -/
def Domain.filter (d : Domain) (predicate : Value → Bool) : Option Domain :=
  let filtered := d.values.filter predicate
  if filtered.length > 0 then some ⟨jsSetDedup filtered⟩ else none

/-- `remove(valuesToRemove)`: new domain without the given values, or `null`
if none remain. -/
def Domain.remove (d : Domain) (valuesToRemove : List Value) : Option Domain :=
  let remaining := d.values.filter (fun v => v ∉ valuesToRemove)
  if remaining.length > 0 then some ⟨jsSetDedup remaining⟩ else none

/-- `toArray()` (also the iteration order of the domain). -/
def Domain.toArray (d : Domain) : List Value := d.values

/-- `BinaryConstraint` data from `src/constraints/constraint.ts`: two
endpoint variables and a two-value predicate. -/
structure BinaryConstraint where
  var1 : Variable
  var2 : Variable
  predicate : Value → Value → Bool

/-- `involves(variable)`. -/
def BinaryConstraint.involves (b : BinaryConstraint) (v : Variable) : Bool :=
  b.var1 = v ∨ b.var2 = v

/-- `getOther(variable)`: the other endpoint, or `null`. -/
def BinaryConstraint.getOther (b : BinaryConstraint) (v : Variable) : Option Variable :=
  if b.var1 = v then some b.var2
  else if b.var2 = v then some b.var1 else none

/-- `getSupportedValues(var1Values, var2Values)`: the double loop that adds
`v1` to `var1Supported` and `v2` to `var2Supported` whenever the predicate
holds of the pair (JS `Set.add`, so first-occurrence order). -/
def BinaryConstraint.getSupportedValues (b : BinaryConstraint)
    (var1Values var2Values : Domain) : List Value × List Value :=
  var1Values.values.foldl
    (fun acc v1 =>
      var2Values.values.foldl
        (fun acc2 v2 =>
          if b.predicate v1 v2 then (jsSetAdd acc2.1 v1, jsSetAdd acc2.2 v2)
          else acc2)
        acc)
    ([], [])

/-- The `Constraint` variants: `FunctionConstraint`, `BinaryConstraint`,
`AllDifferentConstraint` (the `description` strings, diagnostics only, are
dropped). -/
inductive Constraint where
  | function (predicate : Assignment → Bool) (scope : List Variable)
  | binary (b : BinaryConstraint)
  | allDifferent (vars : List Variable)

/-- The loop body of `AllDifferentConstraint.isSatisfied`: walk the scope,
skipping falsy values (unassigned, or bound to `""`), failing on a repeat. -/
def allDiffLoop (a : Assignment) : List Variable → List Value → Bool
  | [], _ => true
  | v :: rest, assignedValues =>
      match alookup a v with
      | some value =>
          if value = "" then allDiffLoop a rest assignedValues
          else if value ∈ assignedValues then false
          else allDiffLoop a rest (value :: assignedValues)
      | none => allDiffLoop a rest assignedValues

/-- `isSatisfied(assignment)` for each variant.  For the binary variant the
source reads `if (!val1 || !val2) return true`, where a JS string is falsy
exactly when it is missing or `""`. -/
def Constraint.isSatisfied : Constraint → Assignment → Bool
  | .function predicate _, a => predicate a
  | .binary b, a =>
      match alookup a b.var1, alookup a b.var2 with
      | some val1, some val2 =>
          if val1 = "" ∨ val2 = "" then true else b.predicate val1 val2
      | _, _ => true
  | .allDifferent vars, a => allDiffLoop a vars []

/-- `getScope()`. -/
def Constraint.getScope : Constraint → List Variable
  | .function _ scope => scope
  | .binary b => [b.var1, b.var2]
  | .allDifferent vars => vars

/-- Factory `differentValues(var1, var2)`: `(v1, v2) => v1 !== v2`. -/
def differentValues (var1 var2 : Variable) : Constraint :=
  .binary ⟨var1, var2, fun v1 v2 => v1 != v2⟩

/-- Factory `allDifferent(variables)` (the `< 2` construction check is the
`InvalidScope` error; claims about it carry the `2 ≤ length` hypothesis). -/
def allDifferent (vars : List Variable) : Constraint :=
  .allDifferent vars

/-- Factory `equalTo(variable, value)`:
`(assignment) => { const assigned = assignment.get(variable);
return !assigned || assigned === value; }` — again `""` is falsy. -/
def equalTo (var : Variable) (value : Value) : Constraint :=
  .function
    (fun a =>
      match alookup a var with
      | none => true
      | some assigned => if assigned = "" then true else assigned == value)
    [var]

/-- `CSP` from `src/data/csp.ts`: ordered variables, a domain map, and the
constraint list.  (The constructor's validation errors — `MissingDomain`,
`UnknownVariable` — concern construction, not the solving claims modelled
here.) -/
structure CSP where
  vars : List Variable
  domains : List (Variable × Domain)
  constraints : List Constraint

/-- `getConstraintsInvolving(variable)`: constraints whose scope contains the
variable (`scope.includes(variable)`). -/
def CSP.getConstraintsInvolving (csp : CSP) (v : Variable) : List Constraint :=
  csp.constraints.filter (fun c => v ∈ c.getScope)

/-- `isConsistent(assignment)`: every constraint is satisfied. -/
def CSP.isConsistent (csp : CSP) (a : Assignment) : Bool :=
  csp.constraints.all (fun c => c.isSatisfied a)

/-- `SolverState` from `src/solver/state.ts` (statistics flattened). -/
structure SolverState where
  assignment : Assignment
  domains : List (Variable × Domain)
  nodesExplored : Nat
  inferencesApplied : Nat
deriving DecidableEq, Repr

/-- `state.assign(variable, value)`: extend the assignment, collapse the
variable's domain to `new Domain([value])`, bump `nodesExplored`. -/
def SolverState.assign (st : SolverState) (var : Variable) (value : Value) :
    SolverState :=
  { assignment := mapSet st.assignment var value
    domains := mapSet st.domains var ⟨[value]⟩
    nodesExplored := st.nodesExplored + 1
    inferencesApplied := st.inferencesApplied }

/-- `state.withInference(newDomains)`: replace the domains, bump
`inferencesApplied`. -/
def SolverState.withInference (st : SolverState)
    (newDomains : List (Variable × Domain)) : SolverState :=
  { assignment := st.assignment
    domains := newDomains
    nodesExplored := st.nodesExplored
    inferencesApplied := st.inferencesApplied + 1 }

/-- The body of the `selectUnassignedVariable` scan for one variable: skip
assigned variables and variables without a domain entry; otherwise take the
variable when `domainSize < minValues || (domainSize === minValues &&
constraintCount > maxConstraints)` (the initial `minValues = Infinity`
makes the first eligible variable always taken, so the accumulator is
`none` until then). -/
def selectStep (csp : CSP) (st : SolverState)
    (acc : Option (Variable × Nat × Nat)) (v : Variable) :
    Option (Variable × Nat × Nat) :=
  if (alookup st.assignment v).isSome then acc
  else
    match alookup st.domains v with
    | none => acc
    | some d =>
        let domainSize := d.size
        let constraintCount := (csp.getConstraintsInvolving v).length
        match acc with
        | none => some (v, domainSize, constraintCount)
        | some (b, minValues, maxConstraints) =>
            if domainSize < minValues ∨
                (domainSize = minValues ∧ maxConstraints < constraintCount) then
              some (v, domainSize, constraintCount)
            else some (b, minValues, maxConstraints)

/-- `selectUnassignedVariable(csp, state)` from `src/solver/heuristics.ts`:
MRV with degree tie-break, `null` when no variable qualifies. -/
def selectUnassignedVariable (csp : CSP) (st : SolverState) : Option Variable :=
  (csp.vars.foldl (selectStep csp st) none).map (fun p => p.1)

/-- `orderDomainValues(csp, variable, state)`: the variable's current domain
as an array, `[]` when the variable has no domain entry. -/
def orderDomainValues (st : SolverState) (var : Variable) : List Value :=
  match alookup st.domains var with
  | none => []
  | some d => d.toArray

/-- An arc `[xi, xj, constraint]` of the AC-3 work queue. -/
abbrev Arc := Variable × Variable × BinaryConstraint

/-- `initializeArcQueue(csp, recentVariable)`: all arcs `(other,
recentVariable)` over binary constraints involving the recent variable
(`if (other)`: a `null` — or `""`, falsy — other endpoint is skipped). -/
def initializeArcQueue (csp : CSP) (recentVariable : Variable) : List Arc :=
  csp.constraints.filterMap (fun c =>
    match c with
    | .binary b =>
        if b.involves recentVariable then
          match b.getOther recentVariable with
          | some other =>
              if other = "" then none else some (other, recentVariable, b)
          | none => none
        else none
    | _ => none)

/-- `revise(domains, xi, xj, constraint)`: drop the values of `xi`'s domain
with no support in `xj`'s domain.  Returns the updated domain map and the
`revised` flag.  When every value is removed, `Domain.remove` returns `null`
and the source stores `new Domain(["__EMPTY__"])` — a marker *of size 1* —
in the map instead. -/
def revise (domains : List (Variable × Domain)) (xi xj : Variable)
    (constraint : BinaryConstraint) : List (Variable × Domain) × Bool :=
  match alookup domains xi, alookup domains xj with
  | some xiDomain, some xjDomain =>
      let supportedPair :=
        constraint.getSupportedValues
          (if constraint.var1 = xi then xiDomain else xjDomain)
          (if constraint.var1 = xi then xjDomain else xiDomain)
      let supported :=
        if constraint.var1 = xi then supportedPair.1 else supportedPair.2
      let toRemove := xiDomain.values.filter (fun value => value ∉ supported)
      if toRemove.length > 0 then
        match xiDomain.remove toRemove with
        | some newDomain => (mapSet domains xi newDomain, true)
        | none => (mapSet domains xi ⟨["__EMPTY__"]⟩, true)
      else (domains, false)
  | _, _ => (domains, false)

/-- The arcs `(xk, xi)` re-enqueued after a revision of `xi`: every binary
constraint involving `xi` whose other endpoint is truthy and `!== xj`. -/
def requeueArcs (csp : CSP) (xi xj : Variable) : List Arc :=
  csp.constraints.filterMap (fun c =>
    match c with
    | .binary b =>
        if b.involves xi then
          match b.getOther xi with
          | some other =>
              if other = "" ∨ other = xj then none else some (other, xi, b)
          | none => none
        else none
    | _ => none)

/-- The `while (queue.length > 0)` loop of `ac3Inference`, with fuel.
`none`: fuel exhausted (the source loop still running); `some none`: the
source returned `null` (wipeout detected by `!xiDomain || xiDomain.size ===
0`); `some (some domains)`: the loop finished with the reduced map. -/
def ac3Loop (csp : CSP) :
    Nat → List Arc → List (Variable × Domain) →
    Option (Option (List (Variable × Domain)))
  | 0, _, _ => none
  | _ + 1, [], domains => some (some domains)
  | n + 1, (xi, xj, constraint) :: rest, domains =>
      let step := revise domains xi xj constraint
      if step.2 then
        match alookup step.1 xi with
        | none => some none
        | some xiDomain =>
            if xiDomain.size = 0 then some none
            else ac3Loop csp n (rest ++ requeueArcs csp xi xj) step.1
      else ac3Loop csp n rest step.1

/-- `ac3Inference(csp, state, recentVariable)` from `src/solver/inference.ts`
(fueled).  `some none` is the source's `null` (infeasible); `some (some st)`
is the propagated state via `state.withInference(domains)`. -/
def ac3Inference (csp : CSP) (fuel : Nat) (st : SolverState)
    (recentVariable : Variable) : Option (Option SolverState) :=
  match ac3Loop csp fuel (initializeArcQueue csp recentVariable) st.domains with
  | none => none
  | some none => some none
  | some (some domains) => some (some (st.withInference domains))

/-- The `for (const value of values)` loop of `search`, taking the recursive
call at the next-smaller fuel as an argument.  `some none` is the source's
`null` (branch exhausted); outer `none` propagates fuel exhaustion. -/
def searchValuesLoop (csp : CSP) (fuel : Nat)
    (searchRec : SolverState → Option (Option SolverState))
    (st : SolverState) (var : Variable) :
    List Value → Option (Option SolverState)
  | [] => some none
  | value :: restValues =>
      let newState := st.assign var value
      if ¬ csp.isConsistent newState.assignment then
        searchValuesLoop csp fuel searchRec st var restValues
      else
        match ac3Inference csp fuel newState var with
        | none => none
        | some none => searchValuesLoop csp fuel searchRec st var restValues
        | some (some inferredState) =>
            match searchRec inferredState with
            | none => none
            | some (some result) => some (some result)
            | some none => searchValuesLoop csp fuel searchRec st var restValues

/-- `search(csp, state)` from `src/solver/search.ts`, with fuel.  The
completeness test is `assignment.size === csp.variables.length`; the selected
variable is checked with `if (!variable)`, so an empty-string variable name
also aborts the branch. -/
def search (csp : CSP) : Nat → SolverState → Option (Option SolverState)
  | 0, _ => none
  | n + 1, st =>
      if st.assignment.length = csp.vars.length then some (some st)
      else
        match selectUnassignedVariable csp st with
        | none => some none
        | some var =>
            if var = "" then some none
            else
              searchValuesLoop csp n (search csp n) st var
                (orderDomainValues st var)

/-- `SolverResult` (flattened; `reason` is `""` on success, and the failure
variant has no assignment, modelled as `[]`; `timeMs` not modelled). -/
structure SolverResult where
  success : Bool
  assignment : Assignment
  reason : String
  nodesExplored : Nat
  inferencesApplied : Nat
deriving DecidableEq, Repr

/-- The initial domain map built by `solveCSP`: `csp.getDomain(variable)` for
each variable in order (`getDomain` cannot throw here when the CSP was
validly constructed; a missing entry is skipped in the model). -/
def initialDomains (csp : CSP) : List (Variable × Domain) :=
  csp.vars.foldl
    (fun m v =>
      match alookup csp.domains v with
      | some d => mapSet m v d
      | none => m)
    []

/-- The initial `SolverState` of `solveCSP`. -/
def initialState (csp : CSP) : SolverState :=
  ⟨[], initialDomains csp, 0, 0⟩

/-- `solveCSP(csp)` from `src/solver/index.ts`, with fuel.  On search failure
the returned statistics are read from `initialState.stats`. -/
def solveCSP (fuel : Nat) (csp : CSP) : Option SolverResult :=
  match search csp fuel (initialState csp) with
  | none => none
  | some (some finalState) =>
      some ⟨true, finalState.assignment, "",
        finalState.nodesExplored, finalState.inferencesApplied⟩
  | some none =>
      some ⟨false, [], "No solution exists that satisfies all constraints",
        (initialState csp).nodesExplored, (initialState csp).inferencesApplied⟩

/-! ## Spec-side predicates (formalising the specification's words, for
comparison against the embedded source functions) -/

/-- Spec: "for every binary constraint (Xi, Xj) and every value v remaining
in Xi's domain, there exists at least one value w in Xj's domain such that
the constraint holds for (v, w)" — checked in both directions of each binary
constraint, over a domain map. -/
def specArcConsistent (csp : CSP) (domains : List (Variable × Domain)) : Bool :=
  csp.constraints.all (fun c =>
    match c with
    | .binary b =>
        match alookup domains b.var1, alookup domains b.var2 with
        | some d1, some d2 =>
            d1.values.all (fun v => d2.values.any (fun w => b.predicate v w)) &&
            d2.values.all (fun w => d1.values.any (fun v => b.predicate v w))
        | _, _ => true
    | _ => true)

/-- Spec: "no two assigned variables in the constraint's scope are bound to
the same value" (every binding counts, including the empty string). -/
def specNoTwoShare (vars : List Variable) (a : Assignment) : Bool :=
  match vars with
  | [] => true
  | v :: rest =>
      (match alookup a v with
       | some x =>
           rest.all (fun u =>
             match alookup a u with
             | some y => !(x == y)
             | none => true)
       | none => true) && specNoTwoShare rest a

/-! ## Concrete problem instances -/

/-- The binary constraint `differentValues "X" "Y"`. -/
def bDead : BinaryConstraint := ⟨"X", "Y", fun v1 v2 => v1 != v2⟩

/-- Two variables `X`, `Y`, both with domain `{"1"}`, constrained `X ≠ Y`:
an unsolvable CSP on which the `"__EMPTY__"` marker bug shows. -/
def cspDeadPair : CSP :=
  ⟨["X", "Y"], [("X", ⟨["1"]⟩), ("Y", ⟨["1"]⟩)], [.binary bDead]⟩

/-- The state of `cspDeadPair` right after the search driver assigns
`X = "1"` (its first and only branching step). -/
def stAfterX : SolverState := (initialState cspDeadPair).assign "X" "1"

/-- The binary equality constraint `X = Y` (built directly on
`BinaryConstraint`, as the public class allows). -/
def bEq : BinaryConstraint := ⟨"X", "Y", fun v1 v2 => v1 == v2⟩

/-- `X ∈ {"1"}`, `Y ∈ {"2"}`, constraint `X = Y`. -/
def cspEqPair : CSP :=
  ⟨["X", "Y"], [("X", ⟨["1"]⟩), ("Y", ⟨["2"]⟩)], [.binary bEq]⟩

/-- The state of `cspEqPair` right after the search driver assigns
`X = "1"`. -/
def stAfterXEq : SolverState := (initialState cspEqPair).assign "X" "1"

/-- Four variables, pairwise `differentValues`, every domain the singleton
`{"1"}`: a pigeonhole-unsolvable instance. -/
def cspK4 : CSP :=
  ⟨["X", "Y", "Z", "W"],
   [("X", ⟨["1"]⟩), ("Y", ⟨["1"]⟩), ("Z", ⟨["1"]⟩), ("W", ⟨["1"]⟩)],
   [differentValues "X" "Y", differentValues "X" "Z", differentValues "X" "W",
    differentValues "Y" "Z", differentValues "Y" "W",
    differentValues "Z" "W"]⟩

/-- The state of `cspK4` right after the search driver assigns `X = "1"`
(MRV picks `X` first; the assignment is consistent, so `ac3Inference` is
invoked on exactly this state). -/
def stAfterXK4 : SolverState := (initialState cspK4).assign "X" "1"

/-- The §8 scenario: `{A, B, C}` with shared domain `{"1","2","3"}`,
`allDifferent` over all three plus `equalTo A "1"`. -/
def cspABC : CSP :=
  ⟨["A", "B", "C"],
   [("A", ⟨["1", "2", "3"]⟩), ("B", ⟨["1", "2", "3"]⟩),
    ("C", ⟨["1", "2", "3"]⟩)],
   [allDifferent ["A", "B", "C"], equalTo "A" "1"]⟩

/-- A one-variable CSP whose function constraint always fails: `solveCSP`
exhausts the search and reports failure. -/
def cspFail : CSP :=
  ⟨["A"], [("A", ⟨["1"]⟩)], [.function (fun _ => false) ["A"]]⟩

/-! ## Claims settled by direct evaluation -/

/-- Claim C1 (refuted — code bug): on `cspDeadPair`, `solveCSP` returns
`success = true` yet binds `Y` to `"__EMPTY__"`, a value not in `Y`'s
original domain `{"1"}`: the `revise` wipeout marker leaks into a reported
solution, so a successful result need not draw values from the original
domains. -/
theorem solveCSP_success_out_of_domain :
    ((solveCSP 10 cspDeadPair).map fun r =>
        (r.success, alookup r.assignment "Y")) = some (true, some "__EMPTY__")
    ∧ (alookup cspDeadPair.domains "Y").map (fun d => d.contains "__EMPTY__")
        = some false := by
  exact ⟨rfl, rfl⟩

/-- Claim C2 (refuted — code bug): on `cspDeadPair` after `X := "1"`, the
arc `(Y, X)` has an empty support set, so revision removes the last value of
`Y`'s working domain `{"1"}` — a domain wipeout — yet `ac3Inference` does
not return the `null` signal (`some none`): it returns a propagated state
whose `Y` domain is the size-1 marker `Domain(["__EMPTY__"])`, which the
`size === 0` check never detects. -/
theorem ac3Inference_wipeout_not_null :
    alookup stAfterX.domains "Y" = some ⟨["1"]⟩
    ∧ (bDead.getSupportedValues ⟨["1"]⟩ ⟨["1"]⟩) = ([], [])
    ∧ ((ac3Inference cspDeadPair 10 stAfterX "X").map
        (Option.map (fun s => alookup s.domains "Y")))
        = some (some (some ⟨["__EMPTY__"]⟩)) := by
  exact ⟨rfl, rfl, rfl⟩

/-- Claim C3 (refuted — code bug): on `cspEqPair` after `X := "1"`,
`ac3Inference` returns a propagated state (not `null`) whose domains are not
arc-consistent: the marker value `"__EMPTY__"` left in `Y`'s working domain
has no supporting value in `X`'s domain under the constraint `X = Y`. -/
theorem ac3Inference_result_not_arc_consistent :
    ((ac3Inference cspEqPair 10 stAfterXEq "X").map
        (Option.map (fun s => specArcConsistent cspEqPair s.domains)))
      = some (some false) := by
  exact rfl

/-- Claim C8 (confirmed): on the §8 scenario `solveCSP` succeeds with
`A = "1"` and `{B, C}` bound to `{"2", "3"}` in one of the two orders. -/
theorem solveCSP_scenario_abc :
    ((solveCSP 20 cspABC).map fun r =>
        (r.success, alookup r.assignment "A", alookup r.assignment "B",
          alookup r.assignment "C"))
        = some (true, some "1", some "2", some "3")
    ∨ ((solveCSP 20 cspABC).map fun r =>
        (r.success, alookup r.assignment "A", alookup r.assignment "B",
          alookup r.assignment "C"))
        = some (true, some "1", some "3", some "2") := by
  exact Or.inl rfl

/-- Claim C10 (confirmed): whenever `solveCSP` reports failure, the reported
statistics are the initial state's counters — `nodesExplored = 0` and
`inferencesApplied = 0` — not the totals accumulated during the search. -/
theorem solveCSP_failure_stats_zero (fuel : Nat) (csp : CSP)
    (r : SolverResult) (h : solveCSP fuel csp = some r)
    (hs : r.success = false) :
    r.nodesExplored = 0 ∧ r.inferencesApplied = 0 := by
  unfold solveCSP at h
  cases hsr : search csp fuel (initialState csp) with
  | none => rw [hsr] at h; exact absurd h (by simp)
  | some o =>
      cases o with
      | some finalState =>
          rw [hsr] at h
          simp only [Option.some.injEq] at h
          rw [← h] at hs
          exact absurd hs (by simp)
      | none =>
          rw [hsr] at h
          simp only [Option.some.injEq] at h
          rw [← h]
          exact ⟨rfl, rfl⟩

/-- Witness for C10: on `cspFail` the solver returns the failure result with
zero counters, and the theorem applies to it. -/
theorem solveCSP_failure_stats_zero_witness :
    (⟨false, [], "No solution exists that satisfies all constraints", 0, 0⟩
        : SolverResult).nodesExplored = 0
    ∧ (⟨false, [], "No solution exists that satisfies all constraints", 0, 0⟩
        : SolverResult).inferencesApplied = 0 :=
  solveCSP_failure_stats_zero 5 cspFail
    ⟨false, [], "No solution exists that satisfies all constraints", 0, 0⟩
    (by decide) rfl

/-- Claim C6, counterexample: for the all-different constraint over
`{A, B}` and the assignment binding both `A` and `B` to the empty string,
two assigned variables share a value, yet `isSatisfied` returns `true` —
the claimed equivalence fails on empty-string bindings. -/
theorem allDifferent_empty_string_shared_cex :
    (allDifferent ["A", "B"]).isSatisfied [("A", ""), ("B", "")] = true
    ∧ specNoTwoShare ["A", "B"] [("A", ""), ("B", "")] = false := by
  exact ⟨rfl, rfl⟩

/-! ## Claim C4: non-termination of the AC-3 work-queue loop

On `cspK4` the first assignment `X := "1"` wipes out `Y`, `Z` and `W` in
turn; each wiped domain becomes the size-1 marker `{"__EMPTY__"}`.  From
then on every arc between two marker variables revises "successfully"
(`"__EMPTY__" !== "__EMPTY__"` fails, so the marker is unsupported, removed,
and re-installed) and re-enqueues two further arcs, one of which is again an
arc between marker variables — the queue never empties. -/

/-- The binary payload of `differentValues u v`. -/
def bK4 (u v : Variable) : BinaryConstraint :=
  ⟨u, v, fun v1 v2 => v1 != v2⟩

/-- The domain map reached after three loop iterations: `X` keeps `{"1"}`,
the other three variables hold the wipeout marker. -/
def dMK4 : List (Variable × Domain) :=
  [("X", ⟨["1"]⟩), ("Y", ⟨["__EMPTY__"]⟩), ("Z", ⟨["__EMPTY__"]⟩),
   ("W", ⟨["__EMPTY__"]⟩)]

/-- The work queue reached after three loop iterations. -/
def q3K4 : List Arc :=
  [("Z", "Y", bK4 "Y" "Z"), ("W", "Y", bK4 "Y" "W"),
   ("Y", "Z", bK4 "Y" "Z"), ("W", "Z", bK4 "Z" "W"),
   ("Y", "W", bK4 "Y" "W"), ("Z", "W", bK4 "Z" "W")]

/-- The arcs that can circulate once `Y`, `Z`, `W` hold the marker: any arc
targeting a marker variable, with the constraint of that variable pair. -/
def k4Allowed : List Arc :=
  [("Z", "Y", bK4 "Y" "Z"), ("W", "Y", bK4 "Y" "W"), ("X", "Y", bK4 "X" "Y"),
   ("Y", "Z", bK4 "Y" "Z"), ("W", "Z", bK4 "Z" "W"), ("X", "Z", bK4 "X" "Z"),
   ("Y", "W", bK4 "Y" "W"), ("Z", "W", bK4 "Z" "W"), ("X", "W", bK4 "X" "W")]

/-- Once the domains are `dMK4` and the queue holds only arcs of
`k4Allowed`, at least one of which does not start at `X`, the loop runs
forever: every fuel amount is exhausted. -/
theorem ac3Loop_k4_stuck : ∀ (n : Nat) (q : List Arc),
    (∀ a ∈ q, a ∈ k4Allowed) → (∃ a ∈ q, a.1 ≠ "X") →
    ac3Loop cspK4 n q dMK4 = none := by
  intro n
  induction n with
  | zero => intro q _ _; rfl
  | succ m ih =>
      intro q hall hex
      cases q with
      | nil =>
          obtain ⟨a, ha, _⟩ := hex
          exact absurd ha (List.not_mem_nil a)
      | cons a rest =>
          have hrest : ∀ b ∈ rest, b ∈ k4Allowed :=
            fun b hb => hall b (List.mem_cons_of_mem a hb)
          have hexrest : a.1 = "X" → ∃ b ∈ rest, b.1 ≠ "X" := by
            intro hax
            obtain ⟨b, hb, hbx⟩ := hex
            rcases List.mem_cons.1 hb with rfl | hb'
            · exact absurd hax hbx
            · exact ⟨b, hb', hbx⟩
          have hmem : a ∈ k4Allowed := hall a (List.mem_cons_self a rest)
          simp only [k4Allowed, List.mem_cons, List.not_mem_nil, or_false]
            at hmem
          rcases hmem with rfl | rfl | rfl | rfl | rfl | rfl | rfl | rfl | rfl
          · exact ih (rest ++ [("X", "Z", bK4 "X" "Z"), ("W", "Z", bK4 "Z" "W")])
              (by
                intro b hb
                rcases List.mem_append.1 hb with h | h
                · exact hrest b h
                · rcases List.mem_cons.1 h with rfl | h'
                  · simp [k4Allowed]
                  · rcases List.mem_cons.1 h' with rfl | h''
                    · simp [k4Allowed]
                    · exact absurd h'' (List.not_mem_nil b))
              ⟨("W", "Z", bK4 "Z" "W"),
                List.mem_append_right _ (by simp), by decide⟩
          · exact ih (rest ++ [("X", "W", bK4 "X" "W"), ("Z", "W", bK4 "Z" "W")])
              (by
                intro b hb
                rcases List.mem_append.1 hb with h | h
                · exact hrest b h
                · rcases List.mem_cons.1 h with rfl | h'
                  · simp [k4Allowed]
                  · rcases List.mem_cons.1 h' with rfl | h''
                    · simp [k4Allowed]
                    · exact absurd h'' (List.not_mem_nil b))
              ⟨("Z", "W", bK4 "Z" "W"),
                List.mem_append_right _ (by simp), by decide⟩
          · exact ih rest hrest (hexrest rfl)
          · exact ih (rest ++ [("X", "Y", bK4 "X" "Y"), ("W", "Y", bK4 "Y" "W")])
              (by
                intro b hb
                rcases List.mem_append.1 hb with h | h
                · exact hrest b h
                · rcases List.mem_cons.1 h with rfl | h'
                  · simp [k4Allowed]
                  · rcases List.mem_cons.1 h' with rfl | h''
                    · simp [k4Allowed]
                    · exact absurd h'' (List.not_mem_nil b))
              ⟨("W", "Y", bK4 "Y" "W"),
                List.mem_append_right _ (by simp), by decide⟩
          · exact ih (rest ++ [("X", "W", bK4 "X" "W"), ("Y", "W", bK4 "Y" "W")])
              (by
                intro b hb
                rcases List.mem_append.1 hb with h | h
                · exact hrest b h
                · rcases List.mem_cons.1 h with rfl | h'
                  · simp [k4Allowed]
                  · rcases List.mem_cons.1 h' with rfl | h''
                    · simp [k4Allowed]
                    · exact absurd h'' (List.not_mem_nil b))
              ⟨("Y", "W", bK4 "Y" "W"),
                List.mem_append_right _ (by simp), by decide⟩
          · exact ih rest hrest (hexrest rfl)
          · exact ih (rest ++ [("X", "Y", bK4 "X" "Y"), ("Z", "Y", bK4 "Y" "Z")])
              (by
                intro b hb
                rcases List.mem_append.1 hb with h | h
                · exact hrest b h
                · rcases List.mem_cons.1 h with rfl | h'
                  · simp [k4Allowed]
                  · rcases List.mem_cons.1 h' with rfl | h''
                    · simp [k4Allowed]
                    · exact absurd h'' (List.not_mem_nil b))
              ⟨("Z", "Y", bK4 "Y" "Z"),
                List.mem_append_right _ (by simp), by decide⟩
          · exact ih (rest ++ [("X", "Z", bK4 "X" "Z"), ("Y", "Z", bK4 "Y" "Z")])
              (by
                intro b hb
                rcases List.mem_append.1 hb with h | h
                · exact hrest b h
                · rcases List.mem_cons.1 h with rfl | h'
                  · simp [k4Allowed]
                  · rcases List.mem_cons.1 h' with rfl | h''
                    · simp [k4Allowed]
                    · exact absurd h'' (List.not_mem_nil b))
              ⟨("Y", "Z", bK4 "Y" "Z"),
                List.mem_append_right _ (by simp), by decide⟩
          · exact ih rest hrest (hexrest rfl)

/-- From the actual entry configuration of `ac3Inference` on `cspK4` after
`X := "1"`, the loop never finishes: three concrete steps reach
`(q3K4, dMK4)`, which `ac3Loop_k4_stuck` keeps forever. -/
theorem ac3Loop_k4_from_start : ∀ n : Nat,
    ac3Loop cspK4 n (initializeArcQueue cspK4 "X") stAfterXK4.domains
      = none := by
  intro n
  match n with
  | 0 => rfl
  | 1 => rfl
  | 2 => rfl
  | (m + 3) =>
      have hbridge :
          ac3Loop cspK4 (m + 3) (initializeArcQueue cspK4 "X")
              stAfterXK4.domains
            = ac3Loop cspK4 m q3K4 dMK4 := rfl
      refine hbridge.trans (ac3Loop_k4_stuck m q3K4 ?_ ?_)
      · intro a ha
        simp only [q3K4, List.mem_cons, List.not_mem_nil, or_false] at ha
        rcases ha with rfl | rfl | rfl | rfl | rfl | rfl <;> simp [k4Allowed]
      · exact ⟨("Z", "Y", bK4 "Y" "Z"), by simp [q3K4], by decide⟩

/-- Claim C4 (refuted — code bug): on `cspK4`, the very first `ac3Inference`
invocation of the solve (after the driver assigns `X := "1"`) does not halt:
for every fuel amount the work-queue loop is still running.  Consequently
`solveCSP` on this finite CSP never returns. -/
theorem ac3Inference_k4_never_halts :
    ∀ fuel : Nat, ac3Inference cspK4 fuel stAfterXK4 "X" = none := by
  intro fuel
  unfold ac3Inference
  rw [ac3Loop_k4_from_start fuel]

/-! ## Claim C5: domains are never empty -/

/-- Deduplication never turns a nonempty list into an empty one. -/
theorem jsSetDedup_ne_nil {l : List Value} (h : l ≠ []) :
    jsSetDedup l ≠ [] := by
  match l with
  | [] => exact absurd rfl h
  | x :: xs => simp [jsSetDedup, jsSetDedup.go]

/-- A domain built from a nonempty list has size at least 1. -/
theorem size_pos_of_ne_nil {l : List Value} (h : l ≠ []) :
    1 ≤ (⟨jsSetDedup l⟩ : Domain).size :=
  Nat.succ_le_of_lt (List.length_pos.2 (jsSetDedup_ne_nil h))

/-- The domains obtainable through the public `Domain` lifecycle: a
successful construction, followed by any sequence of successful `filter` /
`remove` steps. -/
inductive ReachableDomain : Domain → Prop where
  | base (values : List Value) (d : Domain) :
      Domain.new' values = some d → ReachableDomain d
  | filterStep (d d' : Domain) (p : Value → Bool) :
      ReachableDomain d → d.filter p = some d' → ReachableDomain d'
  | removeStep (d d' : Domain) (l : List Value) :
      ReachableDomain d → d.remove l = some d' → ReachableDomain d'

/-- Claim C5 (confirmed): constructing a `Domain` from an empty value set
fails (`InvalidDomain`, modelled as `none`); `filter` and `remove` return
either a domain of size at least 1 or the explicit empty signal `null`; and
along every sequence of such operations starting from a successful
construction, every `Domain` object has size at least 1. -/
theorem domain_never_empty :
    Domain.new' [] = none
    ∧ (∀ d : Domain, ReachableDomain d → 1 ≤ d.size)
    ∧ (∀ (d : Domain) (p : Value → Bool),
        d.filter p = none ∨ ∃ d', d.filter p = some d' ∧ 1 ≤ d'.size)
    ∧ (∀ (d : Domain) (l : List Value),
        d.remove l = none ∨ ∃ d', d.remove l = some d' ∧ 1 ≤ d'.size) := by
  have hfilter : ∀ (d : Domain) (p : Value → Bool),
      d.filter p = none ∨ ∃ d', d.filter p = some d' ∧ 1 ≤ d'.size := by
    intro d p
    have he : d.filter p
        = (if (d.values.filter p).length > 0
            then some ⟨jsSetDedup (d.values.filter p)⟩ else none) := rfl
    rw [he]
    by_cases h : (d.values.filter p).length > 0
    · rw [if_pos h]
      exact Or.inr ⟨_, rfl, size_pos_of_ne_nil (List.length_pos.1 h)⟩
    · rw [if_neg h]
      exact Or.inl rfl
  have hremove : ∀ (d : Domain) (l : List Value),
      d.remove l = none ∨ ∃ d', d.remove l = some d' ∧ 1 ≤ d'.size := by
    intro d l
    have he : d.remove l
        = (if (d.values.filter (fun v => v ∉ l)).length > 0
            then some ⟨jsSetDedup (d.values.filter (fun v => v ∉ l))⟩
            else none) := rfl
    rw [he]
    by_cases h : (d.values.filter (fun v => v ∉ l)).length > 0
    · rw [if_pos h]
      exact Or.inr ⟨_, rfl, size_pos_of_ne_nil (List.length_pos.1 h)⟩
    · rw [if_neg h]
      exact Or.inl rfl
  refine ⟨rfl, ?_, hfilter, hremove⟩
  intro d hd
  induction hd with
  | base values d hb =>
      unfold Domain.new' at hb
      by_cases h : (jsSetDedup values).isEmpty
      · rw [if_pos h] at hb; exact absurd hb (by simp)
      · rw [if_neg h] at hb
        obtain rfl := Option.some.inj hb
        exact Nat.succ_le_of_lt
          (List.length_pos.2 (by simpa [List.isEmpty_iff] using h))
  | filterStep d d' p _ hstep _ =>
      rcases hfilter d p with h | ⟨d'', h'', hsz⟩
      · exact absurd (h ▸ hstep) (by simp)
      · rw [hstep] at h''
        obtain rfl := Option.some.inj h''.symm
        exact hsz
  | removeStep d d' l _ hstep _ =>
      rcases hremove d l with h | ⟨d'', h'', hsz⟩
      · exact absurd (h ▸ hstep) (by simp)
      · rw [hstep] at h''
        obtain rfl := Option.some.inj h''.symm
        exact hsz

/-- Witness for C5: the domain built from `["1"]` is reachable and the
theorem yields its positive size. -/
theorem domain_never_empty_witness : 1 ≤ (⟨["1"]⟩ : Domain).size :=
  domain_never_empty.2.1 ⟨["1"]⟩ (ReachableDomain.base ["1"] ⟨["1"]⟩ rfl)

/-! ## Claim C9: empty-string bindings are treated as absent -/

/-- Lookup that treats a binding to `""` as absent (the effect of JS string
truthiness on `assignment.get`). -/
def lookupNE (a : Assignment) (v : Variable) : Option Value :=
  match alookup a v with
  | some x => if x = "" then none else some x
  | none => none

/-- Drop the empty-string bindings of an assignment. -/
def eraseEmptyBindings (a : Assignment) : Assignment :=
  a.filter (fun p => p.2 != "")

/-- A key absent from an association list is absent after filtering too. -/
theorem alookup_filter_none {α β : Type} [DecidableEq α]
    (f : α × β → Bool) (l : List (α × β)) (v : α)
    (h : v ∉ l.map Prod.fst) : alookup (l.filter f) v = none := by
  induction l with
  | nil => rfl
  | cons p rest ih =>
      obtain ⟨k, x⟩ := p
      simp only [List.map_cons, List.mem_cons, not_or] at h
      have hne : ¬ k = v := fun hk => h.1 hk.symm
      by_cases hf : f (k, x) = true
      · rw [List.filter_cons, if_pos hf]
        show (if k = v then some x else alookup (rest.filter f) v) = none
        rw [if_neg hne]
        exact ih h.2
      · rw [List.filter_cons, if_neg hf]
        exact ih h.2

/-- On assignments with unique keys (JS `Map`s), looking a key up after
dropping the empty-string bindings is `lookupNE`. -/
theorem alookup_eraseEmptyBindings (a : Assignment)
    (hnd : (a.map Prod.fst).Nodup) (v : Variable) :
    alookup (eraseEmptyBindings a) v = lookupNE a v := by
  simp only [eraseEmptyBindings]
  induction a with
  | nil => rfl
  | cons p rest ih =>
      obtain ⟨k, x⟩ := p
      simp only [List.map_cons, List.nodup_cons] at hnd
      by_cases hkv : k = v
      · subst hkv
        by_cases hx : x = ""
        · subst hx
          rw [List.filter_cons, if_neg (by simp)]
          rw [alookup_filter_none _ rest k hnd.1]
          simp [lookupNE, alookup]
        · rw [List.filter_cons, if_pos (by simpa using hx)]
          simp [alookup, lookupNE, hx]
      · by_cases hx : x = ""
        · subst hx
          rw [List.filter_cons, if_neg (by simp)]
          rw [ih hnd.2]
          simp [lookupNE, alookup, hkv]
        · rw [List.filter_cons, if_pos (by simpa using hx)]
          show (if k = v then some x
              else alookup (rest.filter (fun p => p.2 != "")) v) = _
          rw [if_neg hkv, ih hnd.2]
          simp [lookupNE, alookup, hkv]

/-- The all-different scan is unchanged by dropping empty-string bindings:
it skips them anyway. -/
theorem allDiffLoop_eraseEmptyBindings (a : Assignment)
    (hnd : (a.map Prod.fst).Nodup) :
    ∀ (vars : List Variable) (seen : List Value),
      allDiffLoop (eraseEmptyBindings a) vars seen = allDiffLoop a vars seen := by
  intro vars
  induction vars with
  | nil => intro seen; rfl
  | cons v rest ih =>
      intro seen
      simp only [allDiffLoop]
      rw [alookup_eraseEmptyBindings a hnd v]
      cases h : alookup a v with
      | none => simp only [lookupNE, h]; exact ih seen
      | some x =>
          by_cases hx : x = ""
          · subst hx
            simp only [lookupNE, h, if_pos rfl, if_pos (rfl : ("" : Value) = "")]
            exact ih seen
          · simp only [lookupNE, h, if_neg hx]
            by_cases hseen : x ∈ seen
            · simp [hseen]
            · simp only [if_neg hseen]
              exact ih (x :: seen)

/-- Claim C9 (confirmed): a binding to `""` is treated as absent.  A binary
constraint with both endpoints looked up but either bound to `""` is
satisfied regardless of its predicate, and the all-different check is
unchanged by erasing all empty-string bindings (in particular two variables
both bound to `""` never count as a repeated value). -/
theorem empty_string_bindings_ignored :
    (∀ (b : BinaryConstraint) (a : Assignment) (val1 val2 : Value),
        alookup a b.var1 = some val1 → alookup a b.var2 = some val2 →
        val1 = "" ∨ val2 = "" →
        (Constraint.binary b).isSatisfied a = true)
    ∧ (∀ (vars : List Variable) (a : Assignment),
        (a.map Prod.fst).Nodup →
        (Constraint.allDifferent vars).isSatisfied a
          = (Constraint.allDifferent vars).isSatisfied
              (eraseEmptyBindings a)) := by
  constructor
  · intro b a val1 val2 h1 h2 hor
    simp only [Constraint.isSatisfied, h1, h2, if_pos hor]
  · intro vars a hnd
    exact (allDiffLoop_eraseEmptyBindings a hnd vars []).symm

/-- Witness for C9: a binary constraint whose predicate is constantly false
is nevertheless satisfied when one endpoint is bound to `""`. -/
theorem empty_string_bindings_ignored_witness :
    (Constraint.binary ⟨"A", "B", fun _ _ => false⟩).isSatisfied
        [("A", ""), ("B", "x")] = true :=
  empty_string_bindings_ignored.1 ⟨"A", "B", fun _ _ => false⟩
    [("A", ""), ("B", "x")] "" "x" rfl rfl (Or.inl rfl)

/-! ## Claim C6 (amended): the all-different satisfaction criterion -/

/-- Spec (amended): "no two variables in scope bound to the same *non-empty*
value" — `specNoTwoShare` computed over `lookupNE`, which ignores
empty-string bindings. -/
def specNoTwoShareNE (vars : List Variable) (a : Assignment) : Bool :=
  match vars with
  | [] => true
  | v :: rest =>
      (match lookupNE a v with
       | some x =>
           rest.all (fun u =>
             match lookupNE a u with
             | some y => !(x == y)
             | none => true)
       | none => true) && specNoTwoShareNE rest a

/-- Characterisation of the all-different scan: it succeeds iff the list of
non-empty bound values in scope order has no repeats and avoids the `seen`
accumulator. -/
theorem allDiffLoop_eq_true_iff (a : Assignment) :
    ∀ (vars : List Variable) (seen : List Value),
      allDiffLoop a vars seen = true ↔
        ((vars.filterMap (lookupNE a)).Nodup
          ∧ ∀ x ∈ vars.filterMap (lookupNE a), x ∉ seen) := by
  intro vars
  induction vars with
  | nil => intro seen; simp [allDiffLoop]
  | cons v rest ih =>
      intro seen
      cases h : alookup a v with
      | none =>
          have hf : lookupNE a v = none := by simp [lookupNE, h]
          simp only [allDiffLoop, h, List.filterMap_cons, hf]
          exact ih seen
      | some x =>
          by_cases hx : x = ""
          · subst hx
            have hf : lookupNE a v = none := by simp [lookupNE, h]
            simp only [allDiffLoop, h, if_pos rfl, List.filterMap_cons, hf]
            exact ih seen
          · have hf : lookupNE a v = some x := by simp [lookupNE, h, hx]
            simp only [allDiffLoop, h, if_neg hx, List.filterMap_cons, hf]
            by_cases hseen : x ∈ seen
            · simp only [if_pos hseen]
              constructor
              · intro hfalse; exact absurd hfalse (by simp)
              · rintro ⟨-, hall⟩
                exact absurd hseen (hall x (List.mem_cons_self _ _))
            · simp only [if_neg hseen]
              rw [ih (x :: seen)]
              constructor
              · rintro ⟨hnd, hall⟩
                refine ⟨List.nodup_cons.2 ⟨?_, hnd⟩, ?_⟩
                · intro hmem
                  exact hall x hmem (List.mem_cons_self x seen)
                · intro y hy
                  rcases List.mem_cons.1 hy with rfl | hy'
                  · exact hseen
                  · intro hyseen
                    exact hall y hy' (List.mem_cons_of_mem _ hyseen)
              · rintro ⟨hnd, hall⟩
                have hnd' := List.nodup_cons.1 hnd
                refine ⟨hnd'.2, ?_⟩
                intro y hy hymem
                rcases List.mem_cons.1 hymem with rfl | hyseen
                · exact hnd'.1 hy
                · exact hall y (List.mem_cons_of_mem _ hy) hyseen

/-- Characterisation of the spec-side predicate: it holds iff the list of
non-empty bound values in scope order has no repeats. -/
theorem specNoTwoShareNE_iff (a : Assignment) :
    ∀ vars : List Variable,
      specNoTwoShareNE vars a = true ↔
        (vars.filterMap (lookupNE a)).Nodup := by
  intro vars
  induction vars with
  | nil => simp [specNoTwoShareNE]
  | cons v rest ih =>
      cases hf : lookupNE a v with
      | none =>
          simp only [specNoTwoShareNE, hf, List.filterMap_cons,
            Bool.true_and]
          exact ih
      | some x =>
          have hiff : (rest.all (fun u =>
                match lookupNE a u with
                | some y => !(x == y)
                | none => true) = true)
              ↔ x ∉ rest.filterMap (lookupNE a) := by
            rw [List.all_eq_true]
            constructor
            · intro hall hmem
              obtain ⟨u, hu, hfu⟩ := List.mem_filterMap.1 hmem
              have hx := hall u hu
              rw [hfu] at hx
              simp at hx
            · intro hnmem u hu
              cases hfu : lookupNE a u with
              | none => simp [hfu]
              | some y =>
                  have hne : ¬ x = y := fun hxy =>
                    hnmem (List.mem_filterMap.2 ⟨u, hu, by rw [hfu, hxy]⟩)
                  simp [hfu, hne]
          simp only [specNoTwoShareNE, hf, List.filterMap_cons,
            Bool.and_eq_true, ih, List.nodup_cons, hiff]

/-- Claim C6, amended (proved): for an all-different constraint over
`N ≥ 2` variables, `isSatisfied` returns `true` iff no two variables in its
scope are bound to the same *non-empty* value; variables bound to the empty
string are ignored, exactly like unassigned ones. -/
theorem allDifferent_isSatisfied_iff_nonempty
    (vars : List Variable) (a : Assignment) (_h2 : 2 ≤ vars.length) :
    (allDifferent vars).isSatisfied a = true
      ↔ specNoTwoShareNE vars a = true := by
  rw [specNoTwoShareNE_iff]
  show allDiffLoop a vars [] = true ↔ _
  rw [allDiffLoop_eq_true_iff a vars []]
  simp

/-- Witness for the amended C6. -/
theorem allDifferent_isSatisfied_iff_nonempty_witness :
    (allDifferent ["A", "B"]).isSatisfied [("A", "1"), ("B", "2")] = true
      ↔ specNoTwoShareNE ["A", "B"] [("A", "1"), ("B", "2")] = true :=
  allDifferent_isSatisfied_iff_nonempty ["A", "B"] [("A", "1"), ("B", "2")]
    (by decide)

/-! ## Claim C7: the variable-selection heuristic -/

/-- A variable the scan can pick: unassigned, with a domain entry. -/
def eligible (st : SolverState) (v : Variable) : Prop :=
  alookup st.assignment v = none ∧ (alookup st.domains v).isSome = true

/-- The current domain size of a variable (`0` when it has no entry; the
scan never picks such a variable). -/
def dsize (st : SolverState) (v : Variable) : Nat :=
  match alookup st.domains v with
  | some d => d.size
  | none => 0

/-- The degree used for tie-breaking: `getConstraintsInvolving(v).length`. -/
def degree (csp : CSP) (v : Variable) : Nat :=
  (csp.getConstraintsInvolving v).length

/-- Invariant of the `selectUnassignedVariable` scan, relative to the set
`S` of variables examined so far: `none` means no examined variable was
eligible; `some (b, m, c)` records an examined eligible variable with its
domain size and degree, minimal in size and maximal in degree among
examined eligible variables. -/
def SelectInv (csp : CSP) (st : SolverState) (S : Variable → Prop) :
    Option (Variable × Nat × Nat) → Prop
  | none => ∀ v, S v → ¬ eligible st v
  | some (b, m, c) =>
      eligible st b ∧ S b ∧ m = dsize st b ∧ c = degree csp b ∧
        ∀ v, S v → eligible st v →
          m ≤ dsize st v ∧ (dsize st v = m → degree csp v ≤ c)

/-- The invariant only depends on the extension of `S`. -/
theorem selectInv_congr {csp : CSP} {st : SolverState}
    {S T : Variable → Prop} (hST : ∀ v, S v ↔ T v)
    {acc : Option (Variable × Nat × Nat)} (h : SelectInv csp st S acc) :
    SelectInv csp st T acc := by
  cases acc with
  | none => exact fun v hv => h v ((hST v).2 hv)
  | some p =>
      obtain ⟨b, m, c⟩ := p
      obtain ⟨h1, h2, h3, h4, h5⟩ := h
      exact ⟨h1, (hST b).1 h2, h3, h4,
        fun v hv he => h5 v ((hST v).2 hv) he⟩

/-- One scan step preserves the invariant, adding the examined variable. -/
theorem selectStep_inv {csp : CSP} {st : SolverState}
    {S : Variable → Prop} {acc : Option (Variable × Nat × Nat)}
    (h : SelectInv csp st S acc) (v : Variable) :
    SelectInv csp st (fun u => u = v ∨ S u) (selectStep csp st acc v) := by
  cases hA : alookup st.assignment v with
  | some x =>
      have hstep : selectStep csp st acc v = acc := by
        simp [selectStep, hA]
      rw [hstep]
      have hnel : ¬ eligible st v := fun he => by
        rw [he.1] at hA; exact Option.noConfusion hA
      cases acc with
      | none =>
          intro u hu
          rcases hu with rfl | hu'
          · exact hnel
          · exact h u hu'
      | some p =>
          obtain ⟨b, m, c⟩ := p
          obtain ⟨h1, h2, h3, h4, h5⟩ := h
          refine ⟨h1, Or.inr h2, h3, h4, ?_⟩
          intro u hu he
          rcases hu with rfl | hu'
          · exact absurd he hnel
          · exact h5 u hu' he
  | none =>
      cases hD : alookup st.domains v with
      | none =>
          have hstep : selectStep csp st acc v = acc := by
            simp [selectStep, hA, hD]
          rw [hstep]
          have hnel : ¬ eligible st v := fun he => by
            have h2 := he.2
            rw [hD] at h2
            exact Bool.noConfusion h2
          cases acc with
          | none =>
              intro u hu
              rcases hu with rfl | hu'
              · exact hnel
              · exact h u hu'
          | some p =>
              obtain ⟨b, m, c⟩ := p
              obtain ⟨h1, h2, h3, h4, h5⟩ := h
              refine ⟨h1, Or.inr h2, h3, h4, ?_⟩
              intro u hu he
              rcases hu with rfl | hu'
              · exact absurd he hnel
              · exact h5 u hu' he
      | some d =>
          have hel : eligible st v := ⟨hA, by rw [hD]; rfl⟩
          have hdv : dsize st v = d.size := by
            unfold dsize; rw [hD]
          cases acc with
          | none =>
              have hstep : selectStep csp st none v
                  = some (v, d.size, degree csp v) := by
                simp [selectStep, hA, hD, degree]
              rw [hstep]
              refine ⟨hel, Or.inl rfl, hdv.symm, rfl, ?_⟩
              intro u hu he
              rcases hu with rfl | hu'
              · exact ⟨hdv ▸ le_refl _, fun _ => le_refl _⟩
              · exact absurd he (h u hu')
          | some p =>
              obtain ⟨b, m, c⟩ := p
              obtain ⟨h1, h2, h3, h4, h5⟩ := h
              by_cases hcond : d.size < m ∨
                  (d.size = m ∧ c < (csp.getConstraintsInvolving v).length)
              · have hstep : selectStep csp st (some (b, m, c)) v
                    = some (v, d.size, degree csp v) := by
                  simp [selectStep, hA, hD, hcond, degree]
                rw [hstep]
                refine ⟨hel, Or.inl rfl, hdv.symm, rfl, ?_⟩
                intro u hu he
                rcases hu with rfl | hu'
                · exact ⟨hdv ▸ le_refl _, fun _ => le_refl _⟩
                · have hold := h5 u hu' he
                  rcases hcond with hlt | ⟨heq, hdeg⟩
                  · refine ⟨le_of_lt (lt_of_lt_of_le hlt hold.1), ?_⟩
                    intro hdu
                    exact absurd (hdu ▸ hlt)
                      (not_lt_of_le hold.1)
                  · refine ⟨heq ▸ hold.1, ?_⟩
                    intro hdu
                    exact le_of_lt
                      (lt_of_le_of_lt (hold.2 (hdu.trans heq)) hdeg)
              · have hstep : selectStep csp st (some (b, m, c)) v
                    = some (b, m, c) := by
                  simp [selectStep, hA, hD, hcond]
                rw [hstep]
                push_neg at hcond
                refine ⟨h1, Or.inr h2, h3, h4, ?_⟩
                intro u hu he
                rcases hu with rfl | hu'
                · refine ⟨hdv ▸ hcond.1, ?_⟩
                  intro hdu
                  rw [hdv] at hdu
                  exact hcond.2 hdu
                · exact h5 u hu' he

/-- The whole fold preserves the invariant, adding the variables of the
scanned list. -/
theorem selectFold_inv (csp : CSP) (st : SolverState) :
    ∀ (l : List Variable) (acc : Option (Variable × Nat × Nat))
      (S : Variable → Prop), SelectInv csp st S acc →
      SelectInv csp st (fun u => u ∈ l ∨ S u)
        (l.foldl (selectStep csp st) acc) := by
  intro l
  induction l with
  | nil =>
      intro acc S h
      exact selectInv_congr (fun v => by simp) h
  | cons v rest ih =>
      intro acc S h
      have hstep := selectStep_inv h v
      have hfold := ih (selectStep csp st acc v) (fun u => u = v ∨ S u) hstep
      refine selectInv_congr (fun u => ?_) hfold
      simp [List.mem_cons]
      tauto

/-- Claim C7 (confirmed): provided every variable of the CSP has an entry in
the state's domain map (as every state built by the solver does),
`selectUnassignedVariable` returns `none` iff every variable is assigned,
and any returned variable is an unassigned variable of minimal current
domain size, of maximal `getConstraintsInvolving` count among the
minimal-size unassigned variables. -/
theorem selectUnassignedVariable_spec (csp : CSP) (st : SolverState)
    (hdom : ∀ v ∈ csp.vars, (alookup st.domains v).isSome = true) :
    (selectUnassignedVariable csp st = none ↔
      ∀ v ∈ csp.vars, (alookup st.assignment v).isSome = true)
    ∧ (∀ b, selectUnassignedVariable csp st = some b →
        b ∈ csp.vars ∧ alookup st.assignment b = none ∧
          ∀ u ∈ csp.vars, alookup st.assignment u = none →
            dsize st b ≤ dsize st u ∧
              (dsize st u = dsize st b → degree csp u ≤ degree csp b)) := by
  have hbase : SelectInv csp st (fun _ => False) none := fun v hv => hv.elim
  have hmain := selectFold_inv csp st csp.vars none (fun _ => False) hbase
  cases hres : csp.vars.foldl (selectStep csp st) none with
  | none =>
      rw [hres] at hmain
      constructor
      · constructor
        · intro _ v hv
          have hne := hmain v (Or.inl hv)
          rcases hA : alookup st.assignment v with _ | x
          · exact absurd ⟨hA, hdom v hv⟩ hne
          · rfl
        · intro _
          simp [selectUnassignedVariable, hres]
      · intro b hb
        simp [selectUnassignedVariable, hres] at hb
  | some p =>
      obtain ⟨b, m, c⟩ := p
      rw [hres] at hmain
      obtain ⟨h1, h2, h3, h4, h5⟩ := hmain
      have hbv : b ∈ csp.vars := h2.elim id False.elim
      constructor
      · constructor
        · intro habs
          simp [selectUnassignedVariable, hres] at habs
        · intro hall
          have := hall b hbv
          rw [h1.1] at this
          exact absurd this (by simp)
      · intro b' hb'
        have hb'' : b = b' := by
          simpa [selectUnassignedVariable, hres] using hb'
        subst hb''
        refine ⟨hbv, h1.1, ?_⟩
        intro u hu hune
        have ht := h5 u (Or.inl hu) ⟨hune, hdom u hu⟩
        refine ⟨h3 ▸ ht.1, ?_⟩
        intro hd
        have hdm : dsize st u = m := by rw [h3]; exact hd
        have ht2 := ht.2 hdm
        rw [h4] at ht2
        exact ht2

/-- Witness for C7: on a state where the only variable is assigned, the
selection returns `none`. -/
theorem selectUnassignedVariable_spec_witness :
    selectUnassignedVariable ⟨["A"], [("A", ⟨["1"]⟩)], []⟩
        ⟨[("A", "1")], [("A", ⟨["1"]⟩)], 1, 0⟩ = none :=
  (selectUnassignedVariable_spec ⟨["A"], [("A", ⟨["1"]⟩)], []⟩
      ⟨[("A", "1")], [("A", ⟨["1"]⟩)], 1, 0⟩ (by decide)).1.2 (by decide)

end CspSolver
